import Mathlib

/-!
Verification of the contact-form validation engine of `src/main.js`
(TrendyWear). The engine is shallowly embedded: the document state the
script manipulates (the six form controls, their sibling error elements
and the success-message element) is an explicit record, and each event
handler (blur, input, change, submit) becomes a function on that record.
A JavaScript expression that can throw a `TypeError` is embedded in the
`Option` monad, `none` standing for a thrown exception.
-/

/-- JavaScript values that reach the validation predicates: the string
value of a text control, or the boolean `checked` of a checkbox
(`element.value || (element.type === 'checkbox' ? element.checked : '')`). -/
inductive JSVal where
  | str (s : String)
  | bool (b : Bool)
deriving DecidableEq, Repr

/-- The character class `\s` of JavaScript regular expressions
(ECMA-262 WhiteSpace ∪ LineTerminator). -/
def isJsSpace (c : Char) : Bool :=
  c = ' ' || c = '\t' || c = '\n' || c = '\r' || c = '\x0b' || c = '\x0c' ||
  c = '\u00A0' || c = '\u1680' || ('\u2000' ≤ c && c ≤ '\u200A') ||
  c = '\u2028' || c = '\u2029' || c = '\u202F' || c = '\u205F' ||
  c = '\u3000' || c = '\uFEFF'

/-- One character of the class `[^\s@]` used by the email regex. -/
def okChar (c : Char) : Bool := !isJsSpace c && !(c = '@')

/-- `String.prototype.trim()`: strip the JS whitespace characters from
both ends. -/
def jsTrim (cs : List Char) : List Char :=
  ((cs.dropWhile isJsSpace).reverse.dropWhile isJsSpace).reverse

/-- `String(v)`: the coercion `RegExp.prototype.test` applies to a
non-string argument. -/
def jsToString (v : JSVal) : String :=
  match v with
  | .str s => s
  | .bool b => if b then "true" else "false"

/-- `isValidEmail` (src/main.js:10-13): anchored match of
`/^[^\s@]+@[^\s@]+\.[^\s@]+$/`.  Both classes exclude `@`, so a matching
string has exactly one `@`; the local part is everything before it
(`takeWhile`), and the rest must be a nonempty `[^\s@]`-run containing a
`.` that is neither its first nor its last character (the dot of
`\.[^\s@]+$` together with the nonempty `[^\s@]+` on each side). -/
def isValidEmail (s : String) : Bool :=
  match s.toList.dropWhile (fun c => !(c = '@')) with
  | '@' :: rest =>
      let l := s.toList.takeWhile (fun c => !(c = '@'))
      !l.isEmpty && l.all okChar && !rest.isEmpty && rest.all okChar &&
        ((rest.drop 1).dropLast.contains '.')
  | _ => false

/-- `isValidEmail` applied to whatever the handlers pass it:
`test` coerces its argument to a string and never throws. -/
def isValidEmailJS (v : JSVal) : Bool := isValidEmail (jsToString v)

/-- `isFieldValid` (src/main.js:20-22): `value.trim().length > 0`.
A boolean has no `trim` method, so a boolean argument throws a
`TypeError` (`none`). -/
def isFieldValid (v : JSVal) : Option Bool :=
  match v with
  | .str s => some (decide (0 < (jsTrim s.toList).length))
  | .bool _ => none

/-- The six logical fields of the rule table (src/main.js:106-113). -/
inductive FieldId where
  | name | email | subject | category | message | consent
deriving DecidableEq, Repr, Fintype

/-- The insertion order of the rule table, the order `Object.entries`
iterates it in. -/
def fieldOrder : List FieldId :=
  [.name, .email, .subject, .category, .message, .consent]

/-- The `errorMsg` entry of each field rule (src/main.js:107-112). -/
def errorMsg : FieldId → String
  | .name => "Please enter your full name"
  | .email => "Please enter a valid email address"
  | .subject => "Please enter a subject"
  | .category => "Please select a category"
  | .message => "Please enter a message"
  | .consent => "You must agree to the Privacy Policy"

/-- A form control as the script reads it: its current `value` string,
its `checked` flag, whether its `type` is `'checkbox'`, and the default
value/checked state `form.reset()` restores. -/
structure Control where
  value : String
  checked : Bool
  isCheckbox : Bool
  defaultValue : String
  defaultChecked : Bool
deriving DecidableEq, Repr

/-- A per-field error element `<id>Error`: its `textContent` and whether
its `classList` contains `'show'`. -/
structure ErrEl where
  textContent : String
  hasShow : Bool
deriving DecidableEq, Repr

/-- The `successMessage` element: its `style.display`. -/
structure SuccessEl where
  display : String
deriving DecidableEq, Repr

/-- The part of the document the contact-form engine touches.  Every
element is optional: `document.getElementById` returns `null` for an id
the page does not supply. -/
structure Dom where
  nameEl : Option Control
  emailEl : Option Control
  subjectEl : Option Control
  categoryEl : Option Control
  messageEl : Option Control
  consentEl : Option Control
  nameErr : Option ErrEl
  emailErr : Option ErrEl
  subjectErr : Option ErrEl
  categoryErr : Option ErrEl
  messageErr : Option ErrEl
  consentErr : Option ErrEl
  success : Option SuccessEl
deriving DecidableEq, Repr

/-- `document.getElementById(fieldId)`: the control of a field. -/
def Dom.elem (d : Dom) : FieldId → Option Control
  | .name => d.nameEl
  | .email => d.emailEl
  | .subject => d.subjectEl
  | .category => d.categoryEl
  | .message => d.messageEl
  | .consent => d.consentEl

/-- `document.getElementById(fieldId + 'Error')`: the error element of a
field. -/
def Dom.err (d : Dom) : FieldId → Option ErrEl
  | .name => d.nameErr
  | .email => d.emailErr
  | .subject => d.subjectErr
  | .category => d.categoryErr
  | .message => d.messageErr
  | .consent => d.consentErr

/-- Replace the error element of one field. -/
def Dom.setErr (d : Dom) (f : FieldId) (e : Option ErrEl) : Dom :=
  match f with
  | .name => { d with nameErr := e }
  | .email => { d with emailErr := e }
  | .subject => { d with subjectErr := e }
  | .category => { d with categoryErr := e }
  | .message => { d with messageErr := e }
  | .consent => { d with consentErr := e }

/-- Replace the control of one field (used to model the user editing a
control before the corresponding event fires). -/
def Dom.setElem (d : Dom) (f : FieldId) (c : Option Control) : Dom :=
  match f with
  | .name => { d with nameEl := c }
  | .email => { d with emailEl := c }
  | .subject => { d with subjectEl := c }
  | .category => { d with categoryEl := c }
  | .message => { d with messageEl := c }
  | .consent => { d with consentEl := c }

/-- `showFieldError` (src/main.js:29-35) on the error element itself:
set `textContent` to the message, add the `'show'` class; a `null`
element is skipped. -/
def showErrEl (msg : String) (e : Option ErrEl) : Option ErrEl :=
  e.map fun _ => { textContent := msg, hasShow := true }

/-- `clearFieldError` (src/main.js:41-47) on the error element itself:
blank `textContent`, remove the `'show'` class; a `null` element is
skipped. -/
def clearErrEl (e : Option ErrEl) : Option ErrEl :=
  e.map fun _ => { textContent := "", hasShow := false }

/-- `showFieldError fieldId msg` acting on the document. -/
def showErr (d : Dom) (f : FieldId) : Dom :=
  d.setErr f (showErrEl (errorMsg f) (d.err f))

/-- `clearFieldError fieldId` acting on the document. -/
def clearErr (d : Dom) (f : FieldId) : Dom :=
  d.setErr f (clearErrEl (d.err f))

/-- The value both handlers compute (src/main.js:119 and 146):
`element.value || (element.type === 'checkbox' ? element.checked : '')`.
A nonempty string is truthy. -/
def readValue (el : Control) : JSVal :=
  if el.value ≠ "" then .str el.value
  else if el.isCheckbox then .bool el.checked
  else .str ""

/-- The `validate` entry of each field rule.  `name`, `subject`,
`category`, `message` use `isFieldValid`; `email` uses `isValidEmail`;
`consent` ignores its argument and reads
`document.getElementById('consent').checked` afresh — a `TypeError`
(`none`) when that element is absent. -/
def validateField (d : Dom) (f : FieldId) (v : JSVal) : Option Bool :=
  match f with
  | .email => some (isValidEmailJS v)
  | .consent => (d.elem .consent).map (·.checked)
  | _ => isFieldValid v

/-- One field's submit-time check, `fieldData.validate(value)` where
`value = fieldData.element.value || ...` (src/main.js:146-147): `none`
when the control is absent (the unguarded `fieldData.element.value`
throws) or the predicate itself throws. -/
def fieldCheck (d : Dom) (f : FieldId) : Option Bool :=
  (d.elem f).bind fun el => validateField d f (readValue el)

/-- The fields the initialization wiring attaches blur/input/change
listeners to: exactly those whose control is present
(`if (fieldData.element)`, src/main.js:117). -/
def wiredFields (d : Dom) : List FieldId :=
  fieldOrder.filter fun f => (d.elem f).isSome

/-- The blur handler of one field (src/main.js:118-125).  When the
control is absent no listener was attached, so a blur changes nothing
and throws nothing. -/
def blurEvent (d : Dom) (f : FieldId) : Option Dom :=
  match d.elem f with
  | none => some d
  | some el =>
      match validateField d f (readValue el) with
      | none => none
      | some true => some (clearErr d f)
      | some false => some (showErr d f)

/-- The input handler of one field (src/main.js:128-130): clear the
field's error unconditionally; no listener when the control is absent. -/
def inputEvent (d : Dom) (f : FieldId) : Dom :=
  match d.elem f with
  | none => d
  | some _ => clearErr d f

/-- The change handler of one field (src/main.js:132-134): identical to
the input handler. -/
def changeEvent (d : Dom) (f : FieldId) : Dom :=
  match d.elem f with
  | none => d
  | some _ => clearErr d f

/-- `form.reset()` on one control: restore the markup defaults. -/
def resetCtrl (c : Control) : Control :=
  { c with value := c.defaultValue, checked := c.defaultChecked }

/-- `form.reset()` (src/main.js:163): reset every control of the form. -/
def resetForm (d : Dom) : Dom :=
  { d with
    nameEl := d.nameEl.map resetCtrl
    emailEl := d.emailEl.map resetCtrl
    subjectEl := d.subjectEl.map resetCtrl
    categoryEl := d.categoryEl.map resetCtrl
    messageEl := d.messageEl.map resetCtrl
    consentEl := d.consentEl.map resetCtrl }

/-- `successMessage.style.display = 'block'` when the element is present
(src/main.js:157-160). -/
def showSuccess (d : Dom) : Dom :=
  { d with success := d.success.map fun _ => { display := "block" } }

/-- The `setTimeout` callback (src/main.js:166-170):
`successMessage.style.display = 'none'` when the element is present. -/
def runHideTimer (d : Dom) : Dom :=
  { d with success := d.success.map fun _ => { display := "none" } }

/-- The record `console.log`ged on success (src/main.js:174-180). -/
structure LogPayload where
  name : String
  email : String
  subject : String
  category : String
  message : String
deriving DecidableEq, Repr

/-- What one submit dispatch produces: the document afterwards, whether
`e.preventDefault()` ran, the payload records logged, and the delays of
the `setTimeout` hide timers scheduled. -/
structure SubmitResult where
  dom : Dom
  prevented : Bool
  logged : List LogPayload
  timers : List Nat
deriving DecidableEq, Repr

/-- The validation loop of the submit handler (src/main.js:145-153):
`Object.entries(fields).forEach`, reading `fieldData.element.value`
without a null guard (a throw when the element is absent), showing the
error of a failing field and clearing the error of a passing one, and
accumulating `isFormValid`. -/
def submitLoop : List FieldId → Dom → Bool → Option (Dom × Bool)
  | [], d, ok => some (d, ok)
  | f :: rest, d, ok =>
      match d.elem f with
      | none => none
      | some el =>
          match validateField d f (readValue el) with
          | none => none
          | some true => submitLoop rest (clearErr d f) ok
          | some false => submitLoop rest (showErr d f) false

/-- The payload read at src/main.js:174-180 — note it is read from the
document as it stands at that point, i.e. after `form.reset()`. -/
def logPayload (d : Dom) : Option LogPayload :=
  match d.elem .name, d.elem .email, d.elem .subject,
        d.elem .category, d.elem .message with
  | some n, some e, some s, some c, some m =>
      some ⟨n.value, e.value, s.value, c.value, m.value⟩
  | _, _, _, _, _ => none

/-- The submit handler (src/main.js:139-182): `e.preventDefault()`,
the validation loop over all six fields, and — only when every field
passed — show the success message, `form.reset()`, schedule the 5000 ms
hide timer, and log the payload (after the reset). -/
def submitEvent (d : Dom) : Option SubmitResult :=
  (submitLoop fieldOrder d true).bind fun p =>
    if p.2 then
      let d2 := resetForm (showSuccess p.1)
      (logPayload d2).map fun pay =>
        { dom := d2, prevented := true, logged := [pay], timers := [5000] }
    else
      some { dom := p.1, prevented := true, logged := [], timers := [] }

/-! ## Markup assumptions, session invariant, user actions, concrete pages -/

/-- Every field's control and error element is present in the page. -/
def AllPresent (d : Dom) : Prop := ∀ f, (d.elem f).isSome ∧ (d.err f).isSome

/-- The markup shape the script is written against: only `consent` is a
checkbox (the others are two text inputs, a select and a textarea). -/
def WfMarkup (d : Dom) : Prop :=
  ∀ f, f ≠ FieldId.consent → ∀ el ∈ d.elem f, el.isCheckbox = false

/-- Whether a field's error annotation is visibly shown. -/
def errShowing (d : Dom) (f : FieldId) : Bool :=
  ((d.err f).map ErrEl.hasShow).getD false

/-- Session invariant (established below by the `errInv` lemmas): each
error element is cleared, or shows its own field's message while that
field's current value really fails its predicate. -/
def ErrInv (d : Dom) : Prop :=
  ∀ f, ∀ e ∈ d.err f,
    (e.textContent = "" ∧ e.hasShow = false) ∨
    (e.textContent = errorMsg f ∧ e.hasShow = true ∧ fieldCheck d f = some false)

/-- The user edits a control's text to `s`; the browser then fires the
input event, whose listener (when attached) clears the field's error. -/
def userTypes (d : Dom) (f : FieldId) (s : String) : Dom :=
  inputEvent (d.setElem f ((d.elem f).map fun el => { el with value := s })) f

/-- The user toggles the consent checkbox to `b`; the browser then fires
the change event, whose listener (when attached) clears the error. -/
def userToggles (d : Dom) (b : Bool) : Dom :=
  changeEvent
    (d.setElem .consent ((d.elem .consent).map fun el => { el with checked := b }))
    .consent

/-- A text control holding `s` (empty markup default). -/
def textCtl (s : String) : Option Control := some ⟨s, false, false, "", false⟩

/-- The consent checkbox (markup default `value="on"`, default unchecked). -/
def boxCtl (b : Bool) : Option Control := some ⟨"on", b, true, "on", false⟩

/-- A cleared error element. -/
def clearE : Option ErrEl := some ⟨"", false⟩

/-- A fully supplied page with all six fields validly filled in. -/
def dFull : Dom :=
  ⟨textCtl "John Doe", textCtl "user@example.com", textCtl "Hello",
   textCtl "Sales", textCtl "Hi there", boxCtl true,
   clearE, clearE, clearE, clearE, clearE, clearE, some ⟨"none"⟩⟩

/-- `dFull` with the name control missing from the page. -/
def dAbsentName : Dom := dFull.setElem .name none

/-- `dFull` with the consent control missing from the page. -/
def dAbsentConsent : Dom := dFull.setElem .consent none

/-- `dFull` with consent unchecked. -/
def dUnchecked : Dom := dFull.setElem .consent (boxCtl false)

/-- `dFull` with an invalid email value. -/
def dBadEmail : Dom := dFull.setElem .email (textCtl "user@example")

/-- `dFull` with an empty subject. -/
def dEmptySubject : Dom := dFull.setElem .subject (textCtl "")


/-- Written from the specification, for comparison with `isValidEmail`:
the string has the shape `local-part@domain.part` — a nonempty
local-part, `@`, a nonempty domain containing the shown `.`, a nonempty
part — where every component excludes whitespace and `@`. -/
def EmailShape (s : String) : Prop :=
  ∃ l a b : List Char,
    s.toList = l ++ '@' :: (a ++ '.' :: b) ∧
    l ≠ [] ∧ a ≠ [] ∧ b ≠ [] ∧
    (∀ c ∈ l, okChar c) ∧ (∀ c ∈ a, okChar c) ∧ (∀ c ∈ b, okChar c)


/-- Bounded quantification over an optional element is decidable. -/
instance {α : Type} (o : Option α) (p : α → Prop) [DecidablePred p] :
    Decidable (∀ a ∈ o, p a) :=
  match o with
  | none => isTrue (by simp)
  | some c => decidable_of_iff (p c) (by simp)


/-! ## Basic facts about the document operations -/

theorem mem_fieldOrder (f : FieldId) : f ∈ fieldOrder := by
  cases f <;> simp [fieldOrder]

theorem fieldOrder_nodup : fieldOrder.Nodup := by decide

theorem setErr_elem (d : Dom) (f g : FieldId) (e : Option ErrEl) :
    (d.setErr f e).elem g = d.elem g := by
  cases f <;> cases g <;> rfl

theorem setErr_success (d : Dom) (f : FieldId) (e : Option ErrEl) :
    (d.setErr f e).success = d.success := by
  cases f <;> rfl

theorem setErr_err (d : Dom) (f g : FieldId) (e : Option ErrEl) :
    (d.setErr f e).err g = if g = f then e else d.err g := by
  cases f <;> cases g <;> simp [Dom.setErr, Dom.err]

theorem showErr_elem (d : Dom) (f g : FieldId) :
    (showErr d f).elem g = d.elem g := setErr_elem d f g _

theorem clearErr_elem (d : Dom) (f g : FieldId) :
    (clearErr d f).elem g = d.elem g := setErr_elem d f g _

theorem showErr_success (d : Dom) (f : FieldId) :
    (showErr d f).success = d.success := setErr_success d f _

theorem clearErr_success (d : Dom) (f : FieldId) :
    (clearErr d f).success = d.success := setErr_success d f _

theorem showErr_err_self (d : Dom) (f : FieldId) :
    (showErr d f).err f = showErrEl (errorMsg f) (d.err f) := by
  simp [showErr, setErr_err]

theorem clearErr_err_self (d : Dom) (f : FieldId) :
    (clearErr d f).err f = clearErrEl (d.err f) := by
  simp [clearErr, setErr_err]

theorem showErr_err_other (d : Dom) (f g : FieldId) (h : g ≠ f) :
    (showErr d f).err g = d.err g := by
  simp [showErr, setErr_err, h]

theorem clearErr_err_other (d : Dom) (f g : FieldId) (h : g ≠ f) :
    (clearErr d f).err g = d.err g := by
  simp [clearErr, setErr_err, h]

theorem showSuccess_elem (d : Dom) (g : FieldId) :
    (showSuccess d).elem g = d.elem g := by
  cases g <;> rfl

theorem showSuccess_err (d : Dom) (g : FieldId) :
    (showSuccess d).err g = d.err g := by
  cases g <;> rfl

theorem runHideTimer_elem (d : Dom) (g : FieldId) :
    (runHideTimer d).elem g = d.elem g := by
  cases g <;> rfl

theorem runHideTimer_err (d : Dom) (g : FieldId) :
    (runHideTimer d).err g = d.err g := by
  cases g <;> rfl

theorem resetForm_elem (d : Dom) (g : FieldId) :
    (resetForm d).elem g = (d.elem g).map resetCtrl := by
  cases g <;> rfl

theorem resetForm_err (d : Dom) (g : FieldId) :
    (resetForm d).err g = d.err g := by
  cases g <;> rfl

/-- The `validate` closures read the document only through
`document.getElementById('consent')`: two documents with the same
controls validate alike. -/
theorem validateField_congr (d₁ d₂ : Dom) (h : ∀ g, d₁.elem g = d₂.elem g)
    (f : FieldId) (v : JSVal) :
    validateField d₁ f v = validateField d₂ f v := by
  cases f <;> simp [validateField, h]

theorem fieldCheck_congr (d₁ d₂ : Dom) (h : ∀ g, d₁.elem g = d₂.elem g)
    (f : FieldId) : fieldCheck d₁ f = fieldCheck d₂ f := by
  simp only [fieldCheck, h f]
  cases d₂.elem f with
  | none => rfl
  | some el => simp [validateField_congr d₁ d₂ h]

theorem fieldCheck_showErr (d : Dom) (f g : FieldId) :
    fieldCheck (showErr d f) g = fieldCheck d g :=
  fieldCheck_congr _ _ (fun g' => showErr_elem d f g') g

theorem fieldCheck_clearErr (d : Dom) (f g : FieldId) :
    fieldCheck (clearErr d f) g = fieldCheck d g :=
  fieldCheck_congr _ _ (fun g' => clearErr_elem d f g') g

theorem elem_isSome_of_fieldCheck (d : Dom) (f : FieldId)
    (h : (fieldCheck d f).isSome) : (d.elem f).isSome := by
  cases hel : d.elem f with
  | none => simp [fieldCheck, hel] at h
  | some el => rfl

theorem fieldCheck_elem_some (d : Dom) (f : FieldId) (el : Control)
    (h : d.elem f = some el) :
    fieldCheck d f = validateField d f (readValue el) := by
  simp [fieldCheck, h]

/-! ## Characterization of the submit validation loop -/

/-- Everything a completed run of the `forEach` validation loop tells us:
every visited field's check evaluated without throwing, the accumulated
`isFormValid` flag is the conjunction of the checks, controls and the
success element are untouched, unvisited error elements are untouched,
and each visited field's error element was shown or cleared according to
its check. -/
theorem submitLoop_sound (l : List FieldId) :
    ∀ (d : Dom) (ok : Bool) (d' : Dom) (ok' : Bool),
      submitLoop l d ok = some (d', ok') →
      (∀ f ∈ l, (fieldCheck d f).isSome) ∧
      ok' = (ok && l.all fun f => fieldCheck d f == some true) ∧
      (∀ g, d'.elem g = d.elem g) ∧
      d'.success = d.success ∧
      (∀ g, g ∉ l → d'.err g = d.err g) ∧
      (l.Nodup → ∀ g ∈ l,
        d'.err g = if fieldCheck d g == some true
                   then clearErrEl (d.err g) else showErrEl (errorMsg g) (d.err g)) := by
  induction l with
  | nil =>
    intro d ok d' ok' h
    simp only [submitLoop, Option.some.injEq, Prod.mk.injEq] at h
    obtain ⟨rfl, rfl⟩ := h
    exact ⟨by simp, by simp, fun g => rfl, rfl, fun g _ => rfl, by simp⟩
  | cons f rest ih =>
    intro d ok d' ok' h
    cases hel : d.elem f with
    | none => simp [submitLoop, hel] at h
    | some el =>
      cases hv : validateField d f (readValue el) with
      | none => simp [submitLoop, hel, hv] at h
      | some b =>
        have hcf : fieldCheck d f = some b := by
          rw [fieldCheck_elem_some d f el hel, hv]
        cases b with
        | true =>
          have h' : submitLoop rest (clearErr d f) ok = some (d', ok') := by
            simpa [submitLoop, hel, hv] using h
          obtain ⟨h1, h2, h3, h4, h5, h6⟩ := ih (clearErr d f) ok d' ok' h'
          simp only [fieldCheck_clearErr] at h1 h2 h6
          refine ⟨?_, ?_, ?_, ?_, ?_, ?_⟩
          · intro f' hf'
            rcases List.mem_cons.mp hf' with rfl | hf'
            · simp [hcf]
            · exact h1 f' hf'
          · rw [h2]; simp [List.all_cons, hcf]
          · exact fun g => (h3 g).trans (clearErr_elem d f g)
          · exact h4.trans (clearErr_success d f)
          · intro g hg
            rw [List.mem_cons, not_or] at hg
            exact (h5 g hg.2).trans (clearErr_err_other d f g hg.1)
          · intro hnd g hg
            obtain ⟨hfr, hndr⟩ := List.nodup_cons.mp hnd
            rcases List.mem_cons.mp hg with rfl | hg
            · rw [h5 g hfr, clearErr_err_self]
              simp [hcf]
            · have hgf : g ≠ f := fun hgf => hfr (hgf ▸ hg)
              rw [h6 hndr g hg, clearErr_err_other d f g hgf]
        | false =>
          have h' : submitLoop rest (showErr d f) false = some (d', ok') := by
            simpa [submitLoop, hel, hv] using h
          obtain ⟨h1, h2, h3, h4, h5, h6⟩ := ih (showErr d f) false d' ok' h'
          simp only [fieldCheck_showErr] at h1 h2 h6
          refine ⟨?_, ?_, ?_, ?_, ?_, ?_⟩
          · intro f' hf'
            rcases List.mem_cons.mp hf' with rfl | hf'
            · simp [hcf]
            · exact h1 f' hf'
          · rw [h2]; simp [List.all_cons, hcf]
          · exact fun g => (h3 g).trans (showErr_elem d f g)
          · exact h4.trans (showErr_success d f)
          · intro g hg
            rw [List.mem_cons, not_or] at hg
            exact (h5 g hg.2).trans (showErr_err_other d f g hg.1)
          · intro hnd g hg
            obtain ⟨hfr, hndr⟩ := List.nodup_cons.mp hnd
            rcases List.mem_cons.mp hg with rfl | hg
            · rw [h5 g hfr, showErr_err_self]
              simp [hcf]
            · have hgf : g ≠ f := fun hgf => hfr (hgf ▸ hg)
              rw [h6 hndr g hg, showErr_err_other d f g hgf]

/-- The loop completes (throws nothing) when every visited field's check
evaluates. -/
theorem submitLoop_isSome (l : List FieldId) :
    ∀ (d : Dom) (ok : Bool), (∀ f ∈ l, (fieldCheck d f).isSome) →
      (submitLoop l d ok).isSome := by
  induction l with
  | nil => intro d ok _; simp [submitLoop]
  | cons f rest ih =>
    intro d ok h
    have hf := h f (List.mem_cons_self f rest)
    cases hel : d.elem f with
    | none => simp [fieldCheck, hel] at hf
    | some el =>
      have hv' : (validateField d f (readValue el)).isSome := by
        rwa [fieldCheck_elem_some d f el hel] at hf
      cases hv : validateField d f (readValue el) with
      | none => simp [hv] at hv'
      | some b =>
        cases b with
        | true =>
          simp only [submitLoop, hel, hv]
          exact ih (clearErr d f) ok fun g hg => by
            rw [fieldCheck_clearErr]; exact h g (List.mem_cons_of_mem f hg)
        | false =>
          simp only [submitLoop, hel, hv]
          exact ih (showErr d f) false fun g hg => by
            rw [fieldCheck_showErr]; exact h g (List.mem_cons_of_mem f hg)

theorem logPayload_isSome (d : Dom) (h : ∀ f, (d.elem f).isSome) :
    (logPayload d).isSome := by
  obtain ⟨n, hn⟩ := Option.isSome_iff_exists.mp (h .name)
  obtain ⟨e, he⟩ := Option.isSome_iff_exists.mp (h .email)
  obtain ⟨s, hs⟩ := Option.isSome_iff_exists.mp (h .subject)
  obtain ⟨c, hc⟩ := Option.isSome_iff_exists.mp (h .category)
  obtain ⟨m, hm⟩ := Option.isSome_iff_exists.mp (h .message)
  simp [logPayload, hn, he, hs, hc, hm]

theorem submitEvent_of_loop_false (d : Dom) (d1 : Dom)
    (hl : submitLoop fieldOrder d true = some (d1, false)) :
    submitEvent d = some ⟨d1, true, [], []⟩ := by
  simp [submitEvent, hl]

theorem submitEvent_of_loop_true (d : Dom) (d1 : Dom) (pay : LogPayload)
    (hl : submitLoop fieldOrder d true = some (d1, true))
    (hp : logPayload (resetForm (showSuccess d1)) = some pay) :
    submitEvent d = some ⟨resetForm (showSuccess d1), true, [pay], [5000]⟩ := by
  simp [submitEvent, hl, hp]

theorem submitLoop_total (d : Dom) (h : ∀ f, (fieldCheck d f).isSome) :
    ∃ d1 ok, submitLoop fieldOrder d true = some (d1, ok) := by
  have hs := submitLoop_isSome fieldOrder d true fun f _ => h f
  obtain ⟨⟨d1, ok⟩, hl⟩ := Option.isSome_iff_exists.mp hs
  exact ⟨d1, ok, hl⟩

/-- The submit dispatch throws (`none`) exactly when some field's
submit-time check throws — the unguarded `fieldData.element.value` on an
absent element, or a predicate that itself throws. -/
theorem submitEvent_none_iff (d : Dom) :
    submitEvent d = none ↔ ∃ f, fieldCheck d f = none := by
  constructor
  · intro h
    by_contra hno
    push_neg at hno
    have hall : ∀ f, (fieldCheck d f).isSome := by
      intro f
      cases hcf : fieldCheck d f with
      | none => exact absurd hcf (hno f)
      | some b => rfl
    obtain ⟨d1, ok, hl⟩ := submitLoop_total d hall
    obtain ⟨h1, h2, h3, h4, h5, h6⟩ := submitLoop_sound fieldOrder d true d1 ok hl
    cases ok with
    | false => rw [submitEvent_of_loop_false d d1 hl] at h; exact Option.noConfusion h
    | true =>
      have hpres : ∀ f, ((resetForm (showSuccess d1)).elem f).isSome := by
        intro f
        rw [resetForm_elem, showSuccess_elem, h3 f]
        obtain ⟨el, hel⟩ := Option.isSome_iff_exists.mp
          (elem_isSome_of_fieldCheck d f (hall f))
        simp [hel]
      obtain ⟨pay, hp⟩ := Option.isSome_iff_exists.mp
        (logPayload_isSome _ hpres)
      rw [submitEvent_of_loop_true d d1 pay hl hp] at h
      exact Option.noConfusion h
  · rintro ⟨f, hf⟩
    cases hl : submitLoop fieldOrder d true with
    | none => simp [submitEvent, hl]
    | some p =>
      obtain ⟨h1, -⟩ := submitLoop_sound fieldOrder d true p.1 p.2 (by rw [hl])
      have hsome := h1 f (mem_fieldOrder f)
      rw [hf] at hsome
      exact absurd hsome (by simp)

/-! ## Presence and the session invariant -/

theorem setElem_elem_self (d : Dom) (f : FieldId) (c : Option Control) :
    (d.setElem f c).elem f = c := by
  cases f <;> rfl

theorem setElem_elem_other (d : Dom) (f : FieldId) (c : Option Control)
    (g : FieldId) (hg : g ≠ f) : (d.setElem f c).elem g = d.elem g := by
  cases f <;> cases g <;> first | rfl | exact absurd rfl hg

theorem setElem_err (d : Dom) (f : FieldId) (c : Option Control) (g : FieldId) :
    (d.setElem f c).err g = d.err g := by
  cases f <;> cases g <;> rfl

theorem setElem_self (d : Dom) (f : FieldId) : d.setElem f (d.elem f) = d := by
  cases f <;> rfl

/-- The rules of the five non-consent fields do not read the document at
all. -/
theorem validateField_indep (d₁ d₂ : Dom) (g : FieldId)
    (hg : g ≠ FieldId.consent) (v : JSVal) :
    validateField d₁ g v = validateField d₂ g v := by
  cases g <;> first | rfl | exact absurd rfl hg

/-- With the intended markup (only `consent` a checkbox), a present
control means the submit-time check evaluates without throwing. -/
theorem fieldCheck_isSome_of_present (d : Dom) (f : FieldId)
    (hw : WfMarkup d) (hf : (d.elem f).isSome) : (fieldCheck d f).isSome := by
  obtain ⟨el, hel⟩ := Option.isSome_iff_exists.mp hf
  rw [fieldCheck_elem_some d f el hel]
  cases f with
  | email => simp [validateField]
  | consent => simp [validateField, hel]
  | name =>
    have hcb := hw _ (by decide) el hel
    by_cases hv : el.value = "" <;>
      simp [validateField, readValue, hv, hcb, isFieldValid]
  | subject =>
    have hcb := hw _ (by decide) el hel
    by_cases hv : el.value = "" <;>
      simp [validateField, readValue, hv, hcb, isFieldValid]
  | category =>
    have hcb := hw _ (by decide) el hel
    by_cases hv : el.value = "" <;>
      simp [validateField, readValue, hv, hcb, isFieldValid]
  | message =>
    have hcb := hw _ (by decide) el hel
    by_cases hv : el.value = "" <;>
      simp [validateField, readValue, hv, hcb, isFieldValid]

/-- A page whose error elements are all blank satisfies the session
invariant (the state the engine starts in). -/
theorem errInv_of_clear (d : Dom)
    (h : ∀ f, ∀ e ∈ d.err f, e.textContent = "" ∧ e.hasShow = false) :
    ErrInv d :=
  fun f e he => Or.inl (h f e he)

theorem errInv_clearErr (d : Dom) (f : FieldId) (hinv : ErrInv d) :
    ErrInv (clearErr d f) := by
  intro g e he
  rw [fieldCheck_clearErr]
  by_cases hgf : g = f
  · subst hgf
    rw [clearErr_err_self] at he
    cases hdf : d.err g with
    | none => simp [hdf, clearErrEl] at he
    | some e0 =>
      simp [hdf, clearErrEl] at he
      subst he
      exact Or.inl ⟨rfl, rfl⟩
  · rw [clearErr_err_other d f g hgf] at he
    exact hinv g e he

theorem errInv_showErr (d : Dom) (f : FieldId) (hinv : ErrInv d)
    (hf : fieldCheck d f = some false) : ErrInv (showErr d f) := by
  intro g e he
  rw [fieldCheck_showErr]
  by_cases hgf : g = f
  · subst hgf
    rw [showErr_err_self] at he
    cases hdf : d.err g with
    | none => simp [hdf, showErrEl] at he
    | some e0 =>
      simp [hdf, showErrEl] at he
      subst he
      exact Or.inr ⟨rfl, rfl, hf⟩
  · rw [showErr_err_other d f g hgf] at he
    exact hinv g e he

/-- Blur preserves the session invariant. -/
theorem errInv_blurEvent (d d' : Dom) (f : FieldId) (hinv : ErrInv d)
    (h : blurEvent d f = some d') : ErrInv d' := by
  cases hel : d.elem f with
  | none =>
    simp only [blurEvent, hel, Option.some.injEq] at h
    exact h ▸ hinv
  | some el =>
    cases hv : validateField d f (readValue el) with
    | none => simp [blurEvent, hel, hv] at h
    | some b =>
      cases b with
      | true =>
        simp only [blurEvent, hel, hv, Option.some.injEq] at h
        exact h ▸ errInv_clearErr d f hinv
      | false =>
        simp only [blurEvent, hel, hv, Option.some.injEq] at h
        exact h ▸ errInv_showErr d f hinv
          (by rw [fieldCheck_elem_some d f el hel, hv])

/-- Editing one field's control cannot change any other field's
submit-time check: only the consent rule reads the document, and only
through the consent control itself. -/
theorem fieldCheck_setElem_other (d : Dom) (f : FieldId) (c : Option Control)
    (g : FieldId) (hgf : g ≠ f) :
    fieldCheck (d.setElem f c) g = fieldCheck d g := by
  cases hg : d.elem g with
  | none =>
    unfold fieldCheck
    rw [setElem_elem_other _ _ _ _ hgf, hg]
    rfl
  | some elg =>
    rw [fieldCheck_elem_some _ g elg (by rw [setElem_elem_other _ _ _ _ hgf, hg]),
        fieldCheck_elem_some d g elg hg]
    by_cases hgc : g = FieldId.consent
    · subst hgc
      simp only [validateField]
      rw [setElem_elem_other _ _ _ _ hgf]
    · exact validateField_indep _ _ g hgc _

/-- After editing a field's control, clearing that same field's error
restores the session invariant. -/
theorem errInv_setElem_clear (d : Dom) (f : FieldId) (c : Option Control)
    (hinv : ErrInv d) : ErrInv (clearErr (d.setElem f c) f) := by
  intro g e he
  by_cases hgf : g = f
  · subst hgf
    rw [clearErr_err_self] at he
    cases hdf : (d.setElem g c).err g with
    | none => simp [hdf, clearErrEl] at he
    | some e0 =>
      simp [hdf, clearErrEl] at he
      subst he
      exact Or.inl ⟨rfl, rfl⟩
  · rw [clearErr_err_other _ _ _ hgf, setElem_err] at he
    rw [fieldCheck_clearErr, fieldCheck_setElem_other d f c g hgf]
    exact hinv g e he

/-- A user edit of a text value followed by its input event preserves
the session invariant: the edited field's error is cleared outright, and
no other field's check can change. -/
theorem errInv_userTypes (d : Dom) (f : FieldId) (s : String) (hinv : ErrInv d) :
    ErrInv (userTypes d f s) := by
  unfold userTypes inputEvent
  cases hel : d.elem f with
  | none =>
    have h0 : d.setElem f (Option.map (fun el : Control => { el with value := s }) none) = d := by
      show d.setElem f none = d
      rw [← hel, setElem_self]
    rw [h0, hel]
    exact hinv
  | some el =>
    have hsome : (d.setElem f (Option.map (fun el => { el with value := s })
        (some el))).elem f = some { el with value := s } := by
      rw [setElem_elem_self]
      rfl
    rw [hsome]
    exact errInv_setElem_clear d f _ hinv

/-- A consent toggle followed by its change event preserves the session
invariant. -/
theorem errInv_userToggles (d : Dom) (b : Bool) (hinv : ErrInv d) :
    ErrInv (userToggles d b) := by
  unfold userToggles changeEvent
  cases hel : d.elem FieldId.consent with
  | none =>
    have h0 : d.setElem .consent
        (Option.map (fun el : Control => { el with checked := b }) none) = d := by
      show d.setElem FieldId.consent none = d
      rw [← hel, setElem_self]
    rw [h0, hel]
    exact hinv
  | some el =>
    have hsome : (d.setElem .consent (Option.map (fun el => { el with checked := b })
        (some el))).elem FieldId.consent = some { el with checked := b } := by
      rw [setElem_elem_self]
      rfl
    rw [hsome]
    exact errInv_setElem_clear d .consent _ hinv

/-- The hide-timer callback preserves the session invariant. -/
theorem errInv_runHideTimer (d : Dom) (hinv : ErrInv d) :
    ErrInv (runHideTimer d) := by
  intro g e he
  rw [runHideTimer_err] at he
  rw [fieldCheck_congr (runHideTimer d) d (runHideTimer_elem d) g]
  exact hinv g e he

/-- A completed submit dispatch leaves the page satisfying the session
invariant, whatever state it started from. -/
theorem errInv_submit (d : Dom) (r : SubmitResult)
    (h : submitEvent d = some r) : ErrInv r.dom := by
  cases hl : submitLoop fieldOrder d true with
  | none => simp [submitEvent, hl] at h
  | some p =>
    obtain ⟨d1, ok⟩ := p
    obtain ⟨h1, h2, h3, h4, h5, h6⟩ := submitLoop_sound fieldOrder d true d1 ok hl
    cases ok with
    | false =>
      rw [submitEvent_of_loop_false d d1 hl] at h
      obtain ⟨rfl⟩ := Option.some.inj h
      intro g e he
      have hg := h6 fieldOrder_nodup g (mem_fieldOrder g)
      rw [fieldCheck_congr _ d h3 g]
      by_cases hc : fieldCheck d g == some true
      · rw [if_pos hc] at hg
        rw [hg] at he
        cases hdf : d.err g with
        | none => simp [hdf, clearErrEl] at he
        | some e0 =>
          simp [hdf, clearErrEl] at he
          subst he
          exact Or.inl ⟨rfl, rfl⟩
      · rw [if_neg hc] at hg
        rw [hg] at he
        cases hdf : d.err g with
        | none => simp [hdf, showErrEl] at he
        | some e0 =>
          simp [hdf, showErrEl] at he
          subst he
          obtain ⟨b, hb⟩ := Option.isSome_iff_exists.mp (h1 g (mem_fieldOrder g))
          cases b with
          | true => rw [hb] at hc; simp at hc
          | false => exact Or.inr ⟨rfl, rfl, hb⟩
    | true =>
      have hpres : ∀ f, ((resetForm (showSuccess d1)).elem f).isSome := by
        intro f
        rw [resetForm_elem, showSuccess_elem, h3 f]
        obtain ⟨el, hel⟩ := Option.isSome_iff_exists.mp
          (elem_isSome_of_fieldCheck d f (h1 f (mem_fieldOrder f)))
        simp [hel]
      obtain ⟨pay, hp⟩ := Option.isSome_iff_exists.mp (logPayload_isSome _ hpres)
      rw [submitEvent_of_loop_true d d1 pay hl hp] at h
      obtain ⟨rfl⟩ := Option.some.inj h
      intro g e he
      simp only [resetForm_err, showSuccess_err] at he
      have hall : fieldOrder.all (fun f => fieldCheck d f == some true) = true := by
        cases hv : fieldOrder.all (fun f => fieldCheck d f == some true) with
        | true => rfl
        | false => rw [hv, Bool.and_false] at h2; exact absurd h2 (by simp)
      have hg := h6 fieldOrder_nodup g (mem_fieldOrder g)
      have hcg : (fieldCheck d g == some true) = true :=
        List.all_eq_true.mp hall g (mem_fieldOrder g)
      rw [if_pos hcg] at hg
      rw [hg] at he
      cases hdf : d.err g with
      | none => simp [hdf, clearErrEl] at he
      | some e0 =>
        simp [hdf, clearErrEl] at he
        subst he
        exact Or.inl ⟨rfl, rfl⟩

/-! ## The email regular expression -/

theorem middle_dot_iff (r : List Char) :
    '.' ∈ (r.drop 1).dropLast ↔
      ∃ a b : List Char, r = a ++ '.' :: b ∧ a ≠ [] ∧ b ≠ [] := by
  constructor
  · intro h
    cases r with
    | nil => simp at h
    | cons x r₁ =>
      simp only [List.drop_succ_cons, List.drop_zero] at h
      have hr₁ : r₁ ≠ [] := by
        intro he
        rw [he] at h
        simp at h
      obtain ⟨m1, m2, hm⟩ := List.append_of_mem h
      have hsplit : r₁ = (m1 ++ '.' :: m2) ++ [r₁.getLast hr₁] := by
        rw [← hm, List.dropLast_append_getLast hr₁]
      refine ⟨x :: m1, m2 ++ [r₁.getLast hr₁], ?_, by simp, by simp⟩
      rw [List.cons_append, List.cons_inj_right]
      exact hsplit.trans (by simp)
  · rintro ⟨a, b, rfl, ha, hb⟩
    obtain ⟨x, a₁, rfl⟩ := List.exists_cons_of_ne_nil ha
    obtain ⟨y, b₁, rfl⟩ := List.exists_cons_of_ne_nil hb
    simp only [List.cons_append, List.drop_succ_cons, List.drop_zero]
    rw [List.dropLast_append_of_ne_nil _ (by simp : '.' :: y :: b₁ ≠ [])]
    simp [List.dropLast]

theorem takeWhile_all_append (p : Char → Bool) (l : List Char) (x : Char)
    (r : List Char) (hl : ∀ c ∈ l, p c = true) (hx : p x = false) :
    (l ++ x :: r).takeWhile p = l ∧ (l ++ x :: r).dropWhile p = x :: r := by
  induction l with
  | nil => simp [List.takeWhile_cons, List.dropWhile_cons, hx]
  | cons c l ih =>
    have hc : p c = true := hl c (List.mem_cons_self c l)
    have ih' := ih fun c' hc' => hl c' (List.mem_cons_of_mem c hc')
    simp [List.takeWhile_cons, List.dropWhile_cons, hc, ih'.1, ih'.2]

theorem okChar_dot : okChar '.' = true := by decide

theorem okChar_ne_at (c : Char) (h : okChar c = true) : c ≠ '@' := by
  intro he
  subst he
  simp [okChar] at h

/-- The executable matcher of `/^[^\s@]+@[^\s@]+\.[^\s@]+$/` accepts
exactly the strings of the specified shape. -/
theorem isValidEmail_iff_shape (s : String) :
    isValidEmail s = true ↔ EmailShape s := by
  constructor
  · intro h
    unfold isValidEmail at h
    split at h
    case h_2 => exact absurd h (by simp)
    case h_1 rest heq =>
      simp only [Bool.and_eq_true, Bool.not_eq_true'] at h
      obtain ⟨⟨⟨⟨h1, h2⟩, h3⟩, h4⟩, h5⟩ := h
      have hcs : s.toList = s.toList.takeWhile (fun c => !(c = '@')) ++ '@' :: rest :=
        (List.takeWhile_append_dropWhile _ s.toList).symm.trans (by rw [heq])
      have hmid : '.' ∈ (rest.drop 1).dropLast := by
        simpa using h5
      obtain ⟨a, b, hab, ha, hb⟩ := (middle_dot_iff rest).mp hmid
      refine ⟨s.toList.takeWhile (fun c => !(c = '@')), a, b, ?_, ?_, ha, hb, ?_, ?_, ?_⟩
      · rw [hab] at hcs
        exact hcs
      · intro he
        rw [he] at h1
        simp at h1
      · exact fun c hc => List.all_eq_true.mp h2 c hc
      · intro c hc
        refine List.all_eq_true.mp h4 c ?_
        rw [hab]
        exact List.mem_append_left _ hc
      · intro c hc
        refine List.all_eq_true.mp h4 c ?_
        rw [hab]
        exact List.mem_append_right _ (List.mem_cons_of_mem _ hc)
  · rintro ⟨l, a, b, hcs, hl, ha, hb, hlo, hao, hbo⟩
    have hp : ∀ c ∈ l, (fun c => !(c = '@')) c = true := by
      intro c hc
      simpa using okChar_ne_at c (hlo c hc)
    have hx : (fun c => !(c = '@')) '@' = false := by simp
    obtain ⟨ht, hdw⟩ := takeWhile_all_append _ l '@' (a ++ '.' :: b) hp hx
    unfold isValidEmail
    rw [hcs, hdw, ht]
    simp only [Bool.and_eq_true, Bool.not_eq_true']
    refine ⟨⟨⟨⟨?_, ?_⟩, ?_⟩, ?_⟩, ?_⟩
    · rw [List.isEmpty_eq_false_iff_exists_mem]
      obtain ⟨x, l', rfl⟩ := List.exists_cons_of_ne_nil hl
      exact ⟨x, List.mem_cons_self x l'⟩
    · exact List.all_eq_true.mpr hlo
    · rw [List.isEmpty_eq_false_iff_exists_mem]
      exact ⟨'.', by simp⟩
    · refine List.all_eq_true.mpr ?_
      intro c hc
      rcases List.mem_append.mp hc with hc | hc
      · exact hao c hc
      · rcases List.mem_cons.mp hc with rfl | hc
        · exact okChar_dot
        · exact hbo c hc
    · have := (middle_dot_iff (a ++ '.' :: b)).mpr ⟨a, b, rfl, ha, hb⟩
      simpa using this

/-! ## The claims -/

/-- C4: the email predicate returns true iff the string has the shape
`local-part@domain.part` whose components exclude whitespace and `@`
(so the portion after the `@` contains at least one `.`); every string
without an `@`, or without a `.` after the `@`, yields false; and the
three documented examples behave as stated. -/
theorem email_predicate_shape (s : String) :
    (isValidEmail s = true ↔ EmailShape s) ∧
    ('@' ∉ s.toList → isValidEmail s = false) ∧
    ((∀ l r : List Char, s.toList = l ++ '@' :: r → '.' ∉ r) →
      isValidEmail s = false) ∧
    isValidEmail "user@example.com" = true ∧
    isValidEmail "user@example" = false ∧
    isValidEmail "user example.com" = false := by
  refine ⟨isValidEmail_iff_shape s, ?_, ?_, by decide, by decide, by decide⟩
  · intro hno
    cases hv : isValidEmail s with
    | false => rfl
    | true =>
      obtain ⟨l, a, b, hcs, -⟩ := (isValidEmail_iff_shape s).mp hv
      refine absurd ?_ hno
      rw [hcs]
      exact List.mem_append_right _ (List.mem_cons_self _ _)
  · intro hno
    cases hv : isValidEmail s with
    | false => rfl
    | true =>
      obtain ⟨l, a, b, hcs, -, -, -, -, -, -⟩ := (isValidEmail_iff_shape s).mp hv
      have hdot : '.' ∈ a ++ '.' :: b :=
        List.mem_append_right _ (List.mem_cons_self _ _)
      exact absurd hdot (hno l (a ++ '.' :: b) hcs)

/-- Witness for C4 at concrete inputs. -/
theorem email_predicate_shape_wit :
    ('@' ∉ "plainaddress".toList ∧ isValidEmail "plainaddress" = false) ∧
    isValidEmail "user@example" = false := by
  constructor
  · exact ⟨by decide, (email_predicate_shape "plainaddress").2.1 (by decide)⟩
  · refine (email_predicate_shape "user@example").2.2.1 ?_
    intro l r h hdot
    have hmem : '.' ∈ "user@example".toList := by
      rw [h]
      exact List.mem_append_right _ (List.mem_cons_of_mem _ hdot)
    exact absurd hmem (by decide)

/-- C6: the required-field predicate returns false exactly on strings
whose trimmed length is zero and true when it is positive, and it is the
rule of every field other than email and consent (name, subject,
category, message). -/
theorem required_field_predicate (s : String) :
    ((jsTrim s.toList).length = 0 → isFieldValid (.str s) = some false) ∧
    (0 < (jsTrim s.toList).length → isFieldValid (.str s) = some true) ∧
    (∀ (d : Dom) (f : FieldId), f ≠ .email → f ≠ .consent →
      validateField d f (.str s) = isFieldValid (.str s)) := by
  refine ⟨?_, ?_, ?_⟩
  · intro h
    have hd : decide (0 < (jsTrim s.toList).length) = false := by
      rw [decide_eq_false_iff_not]
      omega
    show some (decide (0 < (jsTrim s.toList).length)) = some false
    rw [hd]
  · intro h
    have hd : decide (0 < (jsTrim s.toList).length) = true := by
      rw [decide_eq_true_eq]
      exact h
    show some (decide (0 < (jsTrim s.toList).length)) = some true
    rw [hd]
  · intro d f h1 h2
    cases f <;> first | rfl | exact absurd rfl h1 | exact absurd rfl h2

/-- Witness for C6 at concrete inputs. -/
theorem required_field_predicate_wit :
    ((jsTrim "   ".toList).length = 0 ∧ isFieldValid (.str "   ") = some false) ∧
    (0 < (jsTrim "a".toList).length ∧ isFieldValid (.str "a") = some true) :=
  ⟨⟨by decide, (required_field_predicate "   ").1 (by decide)⟩,
   ⟨by decide, (required_field_predicate "a").2.1 (by decide)⟩⟩

/-- C3 as stated is false at two concrete inputs: the required-field
predicate applied to a boolean throws a `TypeError` (a boolean has no
`trim` method), and the consent predicate throws on every input when the
consent control is absent (`document.getElementById('consent').checked`
on `null`). -/
theorem predicate_totality_cex :
    isFieldValid (.bool true) = none ∧
    validateField dAbsentConsent .consent (.str "x") = none :=
  ⟨rfl, rfl⟩

/-- C3 amended: the required-field predicate is total on strings, the
email predicate is total on strings and booleans, and the consent
predicate is total on any input whenever the consent control is present
in the document. -/
theorem predicate_totality (d : Dom) (s : String) (v : JSVal) (f : FieldId)
    (hf : f ≠ FieldId.consent) (hc : (d.elem .consent).isSome) :
    (isFieldValid (.str s)).isSome ∧
    (validateField d f (.str s)).isSome ∧
    (validateField d .email v).isSome ∧
    (validateField d .consent v).isSome := by
  obtain ⟨el, hel⟩ := Option.isSome_iff_exists.mp hc
  refine ⟨by simp [isFieldValid], ?_, by simp [validateField], by simp [validateField, hel]⟩
  cases f <;> first
    | exact absurd rfl hf
    | simp [validateField, isFieldValid]

/-- Witness for the amended C3 at concrete inputs. -/
theorem predicate_totality_wit :
    (FieldId.name ≠ FieldId.consent) ∧ (dFull.elem .consent).isSome ∧
    ((isFieldValid (.str "x")).isSome ∧
     (validateField dFull .name (.str "x")).isSome ∧
     (validateField dFull .email (.bool true)).isSome ∧
     (validateField dFull .consent (.bool true)).isSome) :=
  ⟨by decide, by decide,
   predicate_totality dFull "x" (.bool true) .name (by decide) (by decide)⟩

/-- C9: clearing the error of a field whose annotation is already clear
is a no-op, `clearFieldError` is idempotent on any error element, and an
absent error element is skipped without an exception. -/
theorem clear_error_idempotent (e : ErrEl) (o : Option ErrEl)
    (h1 : e.textContent = "") (h2 : e.hasShow = false) :
    clearErrEl (some e) = some e ∧
    clearErrEl (clearErrEl o) = clearErrEl o ∧
    clearErrEl none = none := by
  refine ⟨?_, ?_, rfl⟩
  · cases e
    subst h1 h2
    rfl
  · cases o <;> rfl

/-- Witness for C9 at concrete error elements. -/
theorem clear_error_idempotent_wit :
    (⟨"", false⟩ : ErrEl).textContent = "" ∧ (⟨"", false⟩ : ErrEl).hasShow = false ∧
    clearErrEl (some ⟨"", false⟩) = some ⟨"", false⟩ ∧
    clearErrEl (clearErrEl (some ⟨"boom", true⟩)) = clearErrEl (some ⟨"boom", true⟩) := by
  have h := clear_error_idempotent ⟨"", false⟩ (some ⟨"boom", true⟩) rfl rfl
  exact ⟨rfl, rfl, h.1, h.2.1⟩

/-- C7: for a field with a present control and error element, blur with
a value its predicate rejects shows the field's message, and an input or
change event rewrites the annotation to the cleared state unconditionally
— the predicate is not consulted (the conclusion holds for any current
value). -/
theorem blur_input_state_machine (d : Dom) (f : FieldId) (el : Control) (e : ErrEl)
    (hel : d.elem f = some el) (herr : d.err f = some e) :
    (validateField d f (readValue el) = some false →
      blurEvent d f = some (showErr d f) ∧
      (showErr d f).err f = some ⟨errorMsg f, true⟩) ∧
    inputEvent d f = clearErr d f ∧
    changeEvent d f = clearErr d f ∧
    (clearErr d f).err f = some ⟨"", false⟩ := by
  refine ⟨?_, ?_, ?_, ?_⟩
  · intro hv
    refine ⟨by simp [blurEvent, hel, hv], ?_⟩
    rw [showErr_err_self, herr]
    rfl
  · simp [inputEvent, hel]
  · simp [changeEvent, hel]
  · rw [clearErr_err_self, herr]
    rfl

/-- Witness for C7 at a concrete page with an invalid email value. -/
theorem blur_input_state_machine_wit :
    dBadEmail.elem .email = some ⟨"user@example", false, false, "", false⟩ ∧
    dBadEmail.err .email = some ⟨"", false⟩ ∧
    validateField dBadEmail .email
      (readValue ⟨"user@example", false, false, "", false⟩) = some false ∧
    blurEvent dBadEmail .email = some (showErr dBadEmail .email) ∧
    (showErr dBadEmail .email).err .email = some ⟨errorMsg .email, true⟩ ∧
    inputEvent dBadEmail .email = clearErr dBadEmail .email := by
  have h := blur_input_state_machine dBadEmail .email
    ⟨"user@example", false, false, "", false⟩ ⟨"", false⟩ rfl rfl
  have h1 := h.1 (by decide)
  exact ⟨rfl, rfl, by decide, h1.1, h1.2, h.2.1⟩

/-- C2 as stated is false at a concrete page: with the name control
absent (all else intact), the submit pass dereferences
`fieldData.element.value` without a guard and throws, instead of
silently skipping the field. -/
theorem absent_field_submit_throws :
    dAbsentName.elem .name = none ∧ submitEvent dAbsentName = none := by
  constructor
  · rfl
  · decide

/-- C2 amended: the initialization wiring and the blur/input/change
handlers do silently skip a field whose control is absent — no listener
is attached, the events change nothing and raise nothing, and no other
field is affected — but the submit pass, whose field loop reads
`fieldData.element.value` unguarded, throws exactly when some field's
control is absent (under the intended markup in which only consent is a
checkbox). -/
theorem absent_field_degradation (d : Dom) (f : FieldId) (hw : WfMarkup d) :
    (d.elem f = none →
      blurEvent d f = some d ∧ inputEvent d f = d ∧ changeEvent d f = d ∧
      f ∉ wiredFields d) ∧
    (submitEvent d = none ↔ ∃ g, d.elem g = none) := by
  constructor
  · intro h
    refine ⟨by simp [blurEvent, h], by simp [inputEvent, h], by simp [changeEvent, h], ?_⟩
    intro hmem
    rw [wiredFields, List.mem_filter] at hmem
    rw [h] at hmem
    exact absurd hmem.2 (by simp)
  · rw [submitEvent_none_iff]
    constructor
    · rintro ⟨g, hg⟩
      refine ⟨g, ?_⟩
      cases hel : d.elem g with
      | none => rfl
      | some el =>
        have hs := fieldCheck_isSome_of_present d g hw (by rw [hel]; rfl)
        rw [hg] at hs
        exact absurd hs (by simp)
    · rintro ⟨g, hg⟩
      exact ⟨g, by simp [fieldCheck, hg]⟩

/-- Witness for the amended C2 at the concrete page missing the name
control. -/
theorem absent_field_degradation_wit :
    WfMarkup dAbsentName ∧ dAbsentName.elem .name = none ∧
    (blurEvent dAbsentName .name = some dAbsentName ∧
     inputEvent dAbsentName .name = dAbsentName ∧
     changeEvent dAbsentName .name = dAbsentName ∧
     FieldId.name ∉ wiredFields dAbsentName) ∧
    (submitEvent dAbsentName = none ↔ ∃ g, dAbsentName.elem g = none) := by
  have h := absent_field_degradation dAbsentName .name (by unfold WfMarkup; decide)
  exact ⟨by unfold WfMarkup; decide, rfl, h.1 rfl, h.2⟩

/-- C5: on a submit with every control and error element present (and
the intended markup), default submission is prevented, the dispatch
returns without throwing, every failing field's error is shown (all
fields are checked, with no short-circuit), the success path is taken
iff every field's check passes, and consent unchecked always blocks the
success path. -/
theorem submit_validation_flow (d : Dom) (hp : AllPresent d) (hw : WfMarkup d) :
    ∃ r, submitEvent d = some r ∧ r.prevented = true ∧
      (∀ f, fieldCheck d f = some false →
        ∃ e, r.dom.err f = some e ∧ e.hasShow = true ∧ e.textContent = errorMsg f) ∧
      ((∀ f, fieldCheck d f = some true) ↔ r.timers = [5000]) ∧
      (∀ el, d.elem .consent = some el → el.checked = false →
        r.timers = [] ∧ r.logged = [] ∧ r.dom.success = d.success) := by
  have hall : ∀ f, (fieldCheck d f).isSome :=
    fun f => fieldCheck_isSome_of_present d f hw (hp f).1
  obtain ⟨d1, ok, hl⟩ := submitLoop_total d hall
  obtain ⟨h1, h2, h3, h4, h5, h6⟩ := submitLoop_sound fieldOrder d true d1 ok hl
  have hconsent : ∀ el, d.elem .consent = some el → el.checked = false →
      fieldCheck d .consent = some false := by
    intro el hel hch
    rw [fieldCheck_elem_some d .consent el hel]
    simp [validateField, hel, hch]
  cases ok with
  | true =>
    have hpres : ∀ f, ((resetForm (showSuccess d1)).elem f).isSome := by
      intro f
      rw [resetForm_elem, showSuccess_elem, h3 f]
      obtain ⟨el, hel⟩ := Option.isSome_iff_exists.mp (hp f).1
      simp [hel]
    obtain ⟨pay, hpay⟩ := Option.isSome_iff_exists.mp (logPayload_isSome _ hpres)
    have halltrue : fieldOrder.all (fun g => fieldCheck d g == some true) = true := by
      cases hv : fieldOrder.all (fun g => fieldCheck d g == some true) with
      | true => rfl
      | false => rw [hv, Bool.and_false] at h2; exact absurd h2 (by simp)
    refine ⟨_, submitEvent_of_loop_true d d1 pay hl hpay, rfl, ?_, ?_, ?_⟩
    · intro f hf
      have hb := List.all_eq_true.mp halltrue f (mem_fieldOrder f)
      rw [hf] at hb
      exact absurd hb (by simp)
    · refine iff_of_true (fun f => ?_) rfl
      exact eq_of_beq (List.all_eq_true.mp halltrue f (mem_fieldOrder f))
    · intro el hel hch
      have hcf := hconsent el hel hch
      have hb := List.all_eq_true.mp halltrue .consent (mem_fieldOrder .consent)
      rw [hcf] at hb
      exact absurd hb (by simp)
  | false =>
    refine ⟨_, submitEvent_of_loop_false d d1 hl, rfl, ?_, ?_, ?_⟩
    · intro f hf
      have hg := h6 fieldOrder_nodup f (mem_fieldOrder f)
      rw [hf] at hg
      rw [if_neg (by simp)] at hg
      obtain ⟨e, he⟩ := Option.isSome_iff_exists.mp (hp f).2
      rw [he] at hg
      exact ⟨_, hg, rfl, rfl⟩
    · constructor
      · intro hv
        have : fieldOrder.all (fun g => fieldCheck d g == some true) = true :=
          List.all_eq_true.mpr fun g _ => by rw [hv g]; simp
        rw [this, Bool.and_true] at h2
        exact absurd h2 (by simp)
      · intro hv
        exact absurd hv (by simp)
    · intro el hel hch
      exact ⟨rfl, rfl, h4⟩

/-- Witness for C5 at the concrete page with consent unchecked. -/
theorem submit_validation_flow_wit :
    AllPresent dUnchecked ∧ WfMarkup dUnchecked ∧
    ∃ r, submitEvent dUnchecked = some r ∧ r.prevented = true ∧
      r.timers = [] ∧ r.logged = [] ∧ r.dom.success = dUnchecked.success := by
  have h := submit_validation_flow dUnchecked
    (by unfold AllPresent; decide) (by unfold WfMarkup; decide)
  obtain ⟨r, hr, hprev, -, -, hcons⟩ := h
  have hc := hcons ⟨"on", false, true, "on", false⟩ rfl rfl
  exact ⟨by unfold AllPresent; decide, by unfold WfMarkup; decide,
    r, hr, hprev, hc.1, hc.2.1, hc.2.2⟩

/-- C10: a submit dispatch that completes while some field's check fails
takes none of the success-path effects: the success element, every
control (so every value) and everything else except error annotations
are unchanged, nothing is logged, and no hide timer is scheduled. -/
theorem failed_submit_atomic (d : Dom) (r : SubmitResult)
    (hr : submitEvent d = some r) (hf : ∃ f, fieldCheck d f = some false) :
    r.prevented = true ∧ r.dom.success = d.success ∧
    (∀ g, r.dom.elem g = d.elem g) ∧ r.logged = [] ∧ r.timers = [] := by
  obtain ⟨f, hf⟩ := hf
  cases hl : submitLoop fieldOrder d true with
  | none => rw [submitEvent, hl] at hr; exact absurd hr (by simp)
  | some p =>
    obtain ⟨d1, ok⟩ := p
    obtain ⟨h1, h2, h3, h4, h5, h6⟩ := submitLoop_sound fieldOrder d true d1 ok hl
    cases ok with
    | true =>
      have := List.all_eq_true.mp (by
        cases hv : fieldOrder.all (fun g => fieldCheck d g == some true) with
        | true => rfl
        | false => rw [hv, Bool.and_false] at h2; exact absurd h2 (by simp)) f (mem_fieldOrder f)
      rw [hf] at this
      exact absurd this (by simp)
    | false =>
      rw [submitEvent_of_loop_false d d1 hl] at hr
      obtain ⟨rfl⟩ := Option.some.inj hr
      exact ⟨rfl, h4, h3, rfl, rfl⟩

/-- Witness for C10 at the concrete page with consent unchecked. -/
theorem failed_submit_atomic_wit :
    fieldCheck dUnchecked .consent = some false ∧
    ∃ r, submitEvent dUnchecked = some r ∧
      r.prevented = true ∧ r.dom.success = dUnchecked.success ∧
      r.logged = [] ∧ r.timers = [] := by
  have hsome : (submitEvent dUnchecked).isSome := by decide
  obtain ⟨r, hr⟩ := Option.isSome_iff_exists.mp hsome
  have h := failed_submit_atomic dUnchecked r hr ⟨.consent, by decide⟩
  exact ⟨by decide, r, hr, h.1, h.2.1, h.2.2.2.1, h.2.2.2.2⟩

/-- C8: a submit in a session-reachable state (the error annotations
satisfy the session invariant), with every control and error element
present, in which exactly one field's check fails, afterwards shows
exactly that field's error annotation and leaves every other field's
annotation exactly as it stood before the submit. -/
theorem single_failure_frame (d : Dom) (f0 : FieldId)
    (hinv : ErrInv d) (hp : AllPresent d)
    (hf : fieldCheck d f0 = some false)
    (hok : ∀ g, g ≠ f0 → fieldCheck d g = some true) :
    ∃ r, submitEvent d = some r ∧
      (∀ g, errShowing r.dom g = true ↔ g = f0) ∧
      (∀ g, g ≠ f0 → r.dom.err g = d.err g) := by
  have hall : ∀ g, (fieldCheck d g).isSome := by
    intro g
    by_cases hg : g = f0
    · rw [hg, hf]; rfl
    · rw [hok g hg]; rfl
  obtain ⟨d1, ok, hl⟩ := submitLoop_total d hall
  obtain ⟨h1, h2, h3, h4, h5, h6⟩ := submitLoop_sound fieldOrder d true d1 ok hl
  have hokfalse : ok = false := by
    have hb : fieldOrder.all (fun g => fieldCheck d g == some true) = false := by
      cases hv : fieldOrder.all (fun g => fieldCheck d g == some true) with
      | false => rfl
      | true =>
        have hbt := List.all_eq_true.mp hv f0 (mem_fieldOrder f0)
        rw [hf] at hbt
        exact absurd hbt (by simp)
    rw [h2, hb, Bool.and_false]
  refine ⟨_, submitEvent_of_loop_false d d1 (by rw [← hokfalse]; exact hl), ?_, ?_⟩
  · intro g
    have hg := h6 fieldOrder_nodup g (mem_fieldOrder g)
    by_cases hgf : g = f0
    · subst hgf
      rw [hf, if_neg (by simp)] at hg
      obtain ⟨e, he⟩ := Option.isSome_iff_exists.mp (hp g).2
      rw [he] at hg
      simp [errShowing, hg, showErrEl]
    · rw [hok g hgf, if_pos (by simp)] at hg
      obtain ⟨e, he⟩ := Option.isSome_iff_exists.mp (hp g).2
      rw [he] at hg
      simp [errShowing, hg, clearErrEl, hgf]
  · intro g hgf
    have hg := h6 fieldOrder_nodup g (mem_fieldOrder g)
    rw [hok g hgf, if_pos (by simp)] at hg
    obtain ⟨e, he⟩ := Option.isSome_iff_exists.mp (hp g).2
    have hdis := hinv g e he
    rcases hdis with ⟨ht, hs⟩ | ⟨-, -, hbad⟩
    · rw [hg, he]
      cases e
      simp only at ht hs
      subst ht hs
      rfl
    · rw [hok g hgf] at hbad
      exact absurd hbad (by simp)

/-- Witness for C8 at the concrete page whose subject is empty. -/
theorem single_failure_frame_wit :
    ErrInv dEmptySubject ∧ AllPresent dEmptySubject ∧
    fieldCheck dEmptySubject .subject = some false ∧
    (∀ g, g ≠ FieldId.subject → fieldCheck dEmptySubject g = some true) ∧
    ∃ r, submitEvent dEmptySubject = some r ∧
      (∀ g, errShowing r.dom g = true ↔ g = FieldId.subject) ∧
      (∀ g, g ≠ FieldId.subject → r.dom.err g = dEmptySubject.err g) := by
  have h := single_failure_frame dEmptySubject .subject
    (by unfold ErrInv; decide) (by unfold AllPresent; decide) (by decide) (by decide)
  exact ⟨by unfold ErrInv; decide, by unfold AllPresent; decide, by decide, by decide, h⟩

/-- C1 describes the intended success path, but the code logs the
payload only after `form.reset()` (src/main.js:163 before 174-180): at a
fully and validly filled page the submit succeeds — default prevented,
success message displayed, one 5000 ms hide timer scheduled (whose
callback hides the message again), every control reset — yet the record
handed to `console.log` holds the reset (empty) values, not the
submitted ones such as "John Doe". -/
theorem success_path_logs_reset_values :
    (submitEvent dFull).map SubmitResult.prevented = some true ∧
    (submitEvent dFull).map SubmitResult.timers = some [5000] ∧
    (submitEvent dFull).map (fun r => r.dom.success) = some (some ⟨"block"⟩) ∧
    (submitEvent dFull).map (fun r => (runHideTimer r.dom).success)
      = some (some ⟨"none"⟩) ∧
    (submitEvent dFull).map (fun r => (r.dom.elem .name).map Control.value)
      = some (some "") ∧
    (submitEvent dFull).map (fun r => (r.dom.elem .message).map Control.value)
      = some (some "") ∧
    (submitEvent dFull).map (fun r => (r.dom.elem .consent).map Control.checked)
      = some (some false) ∧
    (dFull.elem .name).map Control.value = some "John Doe" ∧
    (submitEvent dFull).map SubmitResult.logged = some [⟨"", "", "", "", ""⟩] := by
  decide
